import Mathlib

/-!
Shallow embedding of `src/librustc_resolve/macros.rs`: the macro-invocation
resolver with hygienic scoping (scope tables per module, expansion registry,
definition collector, definition installer, attribute-invocation extraction).

Modules live in an arena addressed by `Nat` indices; `Module<'a>` references
become indices.  `Mark` becomes a `Nat` (its `as_u32` image).  Interned names
become `String`.  Rust panics (indexing a missing map key, `Option::unwrap`)
are modelled by an `Option` result on the operations that can hit them.
-/

set_option autoImplicit false

namespace RustcResolve

abbrev Name := String

/-- The kinds of `SyntaxExtension` (and `MultiItemModifier`) that this file
inspects: `NormalTT` is the call-style (rule-based) expander kind; the three
attribute kinds are `MultiModifier`, `MultiDecorator`, `AttrProcMacro`;
`IdentTT` stands for the remaining non-attribute, non-call kinds. -/
inductive ExtKind where
  | NormalTT
  | IdentTT
  | MultiModifier
  | MultiDecorator
  | AttrProcMacro
  deriving DecidableEq

/-- A compiled extension object (`Rc<SyntaxExtension>`): a kind plus an opaque
payload identifying the particular expander, so distinct definitions compare
unequal. -/
structure Ext where
  kind : ExtKind
  payload : Nat
  deriving DecidableEq

/-- Association-list lookup, modelling `HashMap::get`. -/
def alookup {κ α : Type} [DecidableEq κ] : List (κ × α) → κ → Option α
  | [], _ => none
  | (k, v) :: rest, key => if k = key then some v else alookup rest key

/-- Association-list insert-or-replace, modelling `HashMap::insert`. -/
def ainsert {κ α : Type} [DecidableEq κ] : List (κ × α) → κ → α → List (κ × α)
  | [], k, v => [(k, v)]
  | (k', v') :: rest, k, v =>
      if k' = k then (k, v) :: rest else (k', v') :: ainsert rest k v

/-- Association-list insert-if-absent, modelling `HashMap::entry(k).or_insert(v)`. -/
def orInsert {κ α : Type} [DecidableEq κ] (l : List (κ × α)) (k : κ) (v : α) :
    List (κ × α) :=
  match alookup l k with
  | some _ => l
  | none => l ++ [(k, v)]

/-- A module node: parent (none for the root), the `macros_escape` flag, and
the per-module scope table `macros` from name to extension. -/
structure ModuleData where
  parent : Option Nat
  macros_escape : Bool
  macros : List (Name × Ext)
  deriving DecidableEq

/-- The module arena; a `Module<'a>` reference is an index into it. -/
abbrev Arena := List ModuleData

/-- Well-formedness of the arena: parent indices strictly decrease, which is
how the acyclic module tree is represented (a child is allocated after its
parent).  Stated as a boolean so concrete instances can be checked by
`decide`. -/
def parentWfB (a : Arena) : Bool :=
  (List.range a.length).all fun i =>
    match a.get? i with
    | some m =>
      match m.parent with
      | some p => decide (p < i)
      | none => true
    | none => true

/-- The per-expansion bookkeeping (`ExpansionData`): the module this
expansionʼs output resolves names against, the identity root `def_index`, and
the `const_integer` flag for numeric (array-length-like) positions. -/
structure ExpansionData where
  module : Nat
  def_index : Nat
  const_integer : Bool
  deriving DecidableEq

/-- One entry of the global definitions table: the syntax node that received
an identity and the definition index of its parent.  The definition index of
an entry is its position in the table. -/
structure DefEntry where
  node_id : Nat
  parent : Nat
  deriving DecidableEq

/-- An `ast::MacroDef`: name, span, the `use_locally` and `export` flags, a
node id and an opaque rule body (`export` is a Lean keyword, hence
`exportFlag`). -/
structure MacroDef where
  ident : Name
  span : Nat
  use_locally : Bool
  exportFlag : Bool
  id : Nat
  body : Nat
  deriving DecidableEq

/-- The resolver state threaded through every operation: the module arena
(the scope tree), the expansion registry `expansion_data`, the global
known-macro-names set `macro_names`, the exported-definitions list, the
statement-position invocation map, the definitions table and the node-id
counter. -/
structure Resolver where
  arena : Arena
  expansion_data : List (Nat × ExpansionData)
  macro_names : List Name
  exported_macros : List MacroDef
  macros_at_scope : List (Nat × List Nat)
  definitions : List DefEntry
  next_node_id_ctr : Nat
  deriving DecidableEq

/-- The help line optionally attached to an "undefined macro" diagnostic. -/
inductive Help where
  | didYouMean (suggestion : Name)
  | macroUse
  deriving DecidableEq

/-- An emitted diagnostic: main message plus optional help. -/
structure Diagnostic where
  msg : String
  help : Option Help
  deriving DecidableEq

/-- `macro_names.insert` (`FnvHashSet::insert`): set-insert on the list. -/
def insertName (l : List Name) (n : Name) : List Name :=
  if n ∈ l then l else n :: l

/-- The upward walk past `macros_escape` modules in `add_ext`
(`while module.macros_escape { module = module.parent.unwrap() }`), with
explicit fuel; `none` models the `unwrap` panic or running out of fuel. -/
def escapeChain (a : Arena) : Nat → Nat → Option Nat
  | 0, _ => none
  | fuel + 1, i =>
    match a.get? i with
    | none => none
    | some m =>
      match m.macros_escape with
      | true =>
        match m.parent with
        | some p => escapeChain a fuel p
        | none => none
      | false => some i

/-- The effective module for a scope: the nearest non-escaping module on the
parent chain.  Fuel `i + 1` suffices on a well-formed arena because parents
strictly decrease. -/
def effModule (a : Arena) (i : Nat) : Option Nat :=
  escapeChain a (i + 1) i

/-- The installation half of `add_ext`: walk past escaping modules, insert
the extension into the effective moduleʼs scope table. -/
def add_ext_install (r : Resolver) (scope : Nat) (ident : Name) (ext : Ext) :
    Option Resolver :=
  match alookup r.expansion_data scope with
  | none => none
  | some ed =>
    match effModule r.arena ed.module with
    | none => none
    | some j =>
      match r.arena.get? j with
      | none => none
      | some m =>
        some { r with
               arena := r.arena.set j { m with macros := ainsert m.macros ident ext } }

/-- `Resolver::add_ext`: record call-style-capable (`NormalTT`) names in
`macro_names`, then walk past escaping modules and insert the extension into
the effective moduleʼs scope table. -/
def add_ext (r : Resolver) (scope : Nat) (ident : Name) (ext : Ext) :
    Option Resolver :=
  add_ext_install
    (match ext.kind with
     | ExtKind.NormalTT => { r with macro_names := insertName r.macro_names ident }
     | _ => r)
    scope ident ext

/-- The lookup loop of `resolve_invoc`: check the current moduleʼs scope
table; on a miss move to the parent; stop when a module with no parent has
been checked.  Explicit fuel makes the function total; fuel `i + 1` suffices
on a well-formed arena. -/
def lookupChain (a : Arena) : Nat → Nat → Name → Option Ext
  | 0, _, _ => none
  | fuel + 1, i, name =>
    match a.get? i with
    | none => none
    | some m =>
      match alookup m.macros name with
      | some ext => some ext
      | none =>
        match m.parent with
        | some p => lookupChain a fuel p name
        | none => none

/-- The scope-chain lookup starting at module `i`. -/
def resolveLookup (a : Arena) (i : Nat) (name : Name) : Option Ext :=
  lookupChain a (i + 1) i name

/-- Levenshtein edit distance, the metric used by
`syntax::util::lev_distance`, written with explicit fuel (structural
recursion on the fuel) so that it evaluates by kernel reduction.  Every
recursive call shrinks the combined length of the two lists, so fuel
`xs.length + ys.length` always reaches a base case. -/
def levDistFuel : Nat → List Char → List Char → Nat
  | _, [], ys => ys.length
  | _, x :: xs, [] => (x :: xs).length
  | 0, _ :: _, _ :: _ => 0
  | fuel + 1, x :: xs, y :: ys =>
    if x = y then levDistFuel fuel xs ys
    else 1 + min (levDistFuel fuel (x :: xs) ys)
               (min (levDistFuel fuel xs (y :: ys)) (levDistFuel fuel xs ys))

/-- Levenshtein edit distance with sufficient fuel. -/
def levDist (xs ys : List Char) : Nat :=
  levDistFuel (xs.length + ys.length) xs ys

/-- First pair of minimal second component (`Iterator::min_by_key` returns
the first of several equally minimal elements). -/
def minByDist : List (Name × Nat) → Option (Name × Nat)
  | [] => none
  | p :: rest =>
    match minByDist rest with
    | none => some p
    | some q => if p.2 ≤ q.2 then some p else some q

/-- Modelled from the spec: the nearest-name-suggestion utility
`best_match(candidate_names, target)` (`find_best_match_for_name` from
`syntax::util::lev_distance`, outside this source excerpt).  Candidates
within edit distance `max(target.len(), 3) / 3` are ranked by distance and
the closest is returned. -/
def find_best_match_for_name (names : List Name) (lookup : Name) : Option Name :=
  let maxDist := max lookup.length 3 / 3
  let candidates := names.filterMap fun n =>
    let d := levDist lookup.data n.data
    if d ≤ maxDist then some (n, d) else none
  (minByDist candidates).map Prod.fst

/-- `Resolver::suggest_macro_name`: run nearest-name matching over the global
`macro_names` set; help "did you mean …" when the best match differs from the
input, the module-use-annotation hint when it is the input itself. -/
def suggest_macro_name (r : Resolver) (name : Name) : Option Help :=
  match find_best_match_for_name r.macro_names name with
  | none => none
  | some suggestion =>
    if suggestion ≠ name then Help.didYouMean suggestion else Help.macroUse

/-- A path segment of a call-style invocation: identifier plus generic
parameters (the code only tests `parameters.is_empty()`). -/
structure PathSegment where
  identifier : Name
  parameters : List Nat
  deriving DecidableEq

/-- A macro path: the `global` path-root qualifier flag and the segments. -/
structure MacPath where
  global : Bool
  segments : List PathSegment
  deriving DecidableEq

/-- `InvocationKind`: a call-style (`Bang`) invocation carrying its macro
path, or an attribute-style invocation carrying the attribute name. -/
inductive InvocationKind where
  | bang (path : MacPath)
  | attr (name : Name)
  deriving DecidableEq

/-- An `Invocation` (only its kind matters to resolution). -/
structure Invocation where
  kind : InvocationKind
  deriving DecidableEq

/-- Name extraction of `resolve_invoc`: `inl ()` is the malformed-path error
branch, `inr name` the extracted lookup name; `none` models the panic of
indexing `segments[0]` on an empty, non-global, length-`0` path (impossible
for parsed invocations). -/
def extractName : InvocationKind → Option (Unit ⊕ Name)
  | InvocationKind.attr name => some (Sum.inr name)
  | InvocationKind.bang path =>
    if path.segments.length > 1 ∨ path.global then some (Sum.inl ())
    else
      match path.segments.get? 0 with
      | none => none
      | some seg0 =>
        if ¬seg0.parameters.isEmpty then some (Sum.inl ())
        else some (Sum.inr seg0.identifier)

/-- `Resolver::resolve_invoc`: extract the name (rejecting malformed
call-style paths), walk the scope chain from the markʼs module, and on
failure emit the undefined-macro diagnostic with a suggestion.  The result
pairs the returned binding with the list of emitted diagnostics; the outer
`Option` models panics (unregistered mark, empty path). -/
def resolve_invoc (r : Resolver) (scope : Nat) (invoc : Invocation) :
    Option (Option Ext × List Diagnostic) :=
  match extractName invoc.kind with
  | none => none
  | some (Sum.inl ()) =>
    some (none, [{ msg := "expected macro name without module separators", help := none }])
  | some (Sum.inr name) =>
    match alookup r.expansion_data scope with
    | none => none
    | some ed =>
      match resolveLookup r.arena ed.module name with
      | some ext => some (some ext, [])
      | none =>
        some (none,
          [{ msg := "macro undefined: " ++ "'" ++ name ++ "!" ++ "'",
             help := suggest_macro_name r name }])

/-- Modelled from the spec: `compile_rule_macro`
(`syntax::ext::tt::macro_rules::compile`, outside this source excerpt)
compiles a rule bodyʼs definition into a rule-based (`NormalTT`) expander. -/
def compile (d : MacroDef) : Ext :=
  { kind := ExtKind.NormalTT, payload := d.body }

/-- The reserved-name diagnostic of `add_macro`. -/
def reservedNameDiag : Diagnostic :=
  { msg := "user-defined macros may not be named " ++ "`" ++ "macro_rules" ++ "`",
    help := none }

/-- `Resolver::add_macro`: report a definition named `macro_rules`; if
`use_locally`, compile the body and install through `add_ext`; if `export`,
assign a fresh node id and append to `exported_macros`.  Returns the new
state and the emitted diagnostics. -/
def add_macro (r : Resolver) (scope : Nat) (d : MacroDef) :
    Option (Resolver × List Diagnostic) :=
  let diags := if d.ident = "macro_rules" then [reservedNameDiag] else []
  let step1 : Option Resolver :=
    if d.use_locally then add_ext r scope d.ident (compile d) else some r
  match step1 with
  | none => none
  | some r1 =>
    let r2 :=
      if d.exportFlag then
        { r1 with
          next_node_id_ctr := r1.next_node_id_ctr + 1,
          exported_macros := r1.exported_macros ++ [{ d with id := r1.next_node_id_ctr }] }
      else r1
    some (r2, diags)

/-- An attribute (`ast::Attribute`): its name and span. -/
structure Attribute where
  name : Name
  span : Nat
  deriving DecidableEq

/-- Whether an extension kind is one of the three attribute-invocation kinds
matched by `find_attr_invoc`. -/
def isAttrExt : ExtKind → Bool
  | ExtKind.MultiModifier => true
  | ExtKind.MultiDecorator => true
  | ExtKind.AttrProcMacro => true
  | _ => false

/-- Whether an attribute resolves, in the given scope table, to an
attribute-kind extension. -/
def attrMatches (table : List (Name × Ext)) (a : Attribute) : Bool :=
  match alookup table a.name with
  | some ext => isAttrExt ext.kind
  | none => false

/-- The scan loop of `find_attr_invoc` over a fixed scope table: return and
remove the first attribute bound to an attribute-kind extension, keep every
other attribute in place. -/
def findAttrLoop (table : List (Name × Ext)) :
    List Attribute → Option Attribute × List Attribute
  | [] => (none, [])
  | a :: rest =>
    if attrMatches table a then (some a, rest)
    else
      let (found, rest2) := findAttrLoop table rest
      (found, a :: rest2)

/-- `Resolver::find_attr_invoc`: look every attribute name up in the module
of `expansion_data[&0]` (the root expansionʼs module, i.e. the crate root)
and return-and-remove the first attribute-kind match.  The outer `Option`
models the panic of indexing a missing mark-`0` entry or a dangling module
index. -/
def find_attr_invoc (r : Resolver) (attrs : List Attribute) :
    Option (Option Attribute × List Attribute) :=
  match alookup r.expansion_data 0 with
  | none => none
  | some ed0 =>
    match r.arena.get? ed0.module with
    | none => none
    | some rootm => some (findAttrLoop rootm.macros attrs)

/-- A freshly expanded syntax node: either a nested macro invocation (its
placeholder node id and its expansion mark; its body is unexpanded token
trees, not syntax nodes) or an ordinary node with children. -/
inductive Node where
  | invoc (id : Nat) (mark : Nat)
  | plain (id : Nat) (children : List Node)

/-- The `Expansion` enum: a single expression, or item-like / statement-like
lists of nodes. -/
inductive Expansion where
  | expr (e : Node)
  | items (l : List Node)
  | stmts (l : List Node)

/-- The state mutated by the definition collector: the global definitions
table and the expansion registry. -/
structure CState where
  defs : List DefEntry
  registry : List (Nat × ExpansionData)
  deriving DecidableEq

/-- The `visit_macro_invoc` closure of `collect_def_ids`: register expansion
bookkeeping for a discovered nested invocation with insert-if-absent
semantics, inheriting the module current at collection time together with
the invocationʼs own identity root and numeric-context flag. -/
def visit_macro_invoc (module : Nat) (registry : List (Nat × ExpansionData))
    (markId def_index : Nat) (const_integer : Bool) : List (Nat × ExpansionData) :=
  orInsert registry markId
    { module := module, def_index := def_index, const_integer := const_integer }

mutual

/-- Modelled from the spec: the general traversal of
`rustc::hir::map::DefCollector` (outside this source excerpt) — assign a
hierarchical identity to every node, nested under the parent definition
index, and fire the macro-invocation callback (with numeric-context flag
`false`) for every nested invocation, whose unexpanded body is not
recursed into. -/
def visitNode (module parent : Nat) (st : CState) : Node → CState
  | Node.invoc id mark =>
    { defs := st.defs ++ [{ node_id := id, parent := parent }],
      registry := visit_macro_invoc module st.registry mark parent false }
  | Node.plain id children =>
    visitList module st.defs.length
      { st with defs := st.defs ++ [{ node_id := id, parent := parent }] } children

/-- Modelled from the spec: visiting a list of sibling nodes in order. -/
def visitList (module parent : Nat) (st : CState) : List Node → CState
  | [] => st
  | n :: rest => visitList module parent (visitNode module parent st n) rest

end

/-- Modelled from the spec: `DefCollector::visit_ast_const_integer` (outside
this source excerpt) — the narrower constant-integer-position traversal that
visits only the given expression: a nested invocation is registered with
numeric-context flag `true`, any other expression only receives its own
identity; children are not visited. -/
def visit_ast_const_integer (module parent : Nat) (st : CState) : Node → CState
  | Node.invoc _ mark =>
    { st with registry := visit_macro_invoc module st.registry mark parent true }
  | Node.plain id _ =>
    { st with defs := st.defs ++ [{ node_id := id, parent := parent }] }

/-- Modelled from the spec: `Expansion::visit_with`, the full traversal over
every node of the expansion output. -/
def visitExpansion (module parent : Nat) (st : CState) : Expansion → CState
  | Expansion.expr e => visitNode module parent st e
  | Expansion.items l => visitList module parent st l
  | Expansion.stmts l => visitList module parent st l

/-- `Resolver::collect_def_ids`: look up the markʼs `ExpansionData`; when its
`const_integer` flag is unset, run the full traversal under the markʼs
identity root; when set, visit only a single-expression output through the
constant-integer traversal, and do nothing for any other output shape. -/
def collect_def_ids (r : Resolver) (mark : Nat) (expansion : Expansion) :
    Option Resolver :=
  match alookup r.expansion_data mark with
  | none => none
  | some ed =>
    let st0 : CState := { defs := r.definitions, registry := r.expansion_data }
    let st1 :=
      match ed.const_integer with
      | false => visitExpansion ed.module ed.def_index st0 expansion
      | true =>
        match expansion with
        | Expansion.expr e => visit_ast_const_integer ed.module ed.def_index st0 e
        | _ => st0
    some { r with definitions := st1.defs, expansion_data := st1.registry }

mutual

/-- The node ids occurring in a node tree (root first). -/
def nodeIds : Node → List Nat
  | Node.invoc id _ => [id]
  | Node.plain id children => id :: nodeIdsList children

/-- The node ids occurring in a list of node trees. -/
def nodeIdsList : List Node → List Nat
  | [] => []
  | n :: rest => nodeIds n ++ nodeIdsList rest

end

/-- The node ids of an expansion output. -/
def expansionNodeIds : Expansion → List Nat
  | Expansion.expr e => nodeIds e
  | Expansion.items l => nodeIdsList l
  | Expansion.stmts l => nodeIdsList l

/-- Definition index `i` is nested (through parent links in the definitions
table) under the identity root `root`; `root` itself counts as nested. -/
inductive Nested (defs : List DefEntry) (root : Nat) : Nat → Prop where
  | root : Nested defs root root
  | step {i : Nat} {e : DefEntry} : defs.get? i = some e →
      Nested defs root e.parent → Nested defs root i

/-- A parent-chain walk from `i` to `j` that passes only through modules
whose `macros_escape` flag is set (so `j` is an ancestor-or-self reached by
escaping every module strictly before it). -/
inductive EscPath (a : Arena) : Nat → Nat → Prop where
  | refl (i : Nat) : EscPath a i i
  | step {i p j : Nat} (m : ModuleData) : a.get? i = some m →
      m.macros_escape = true → m.parent = some p → EscPath a p j → EscPath a i j

/-- One installation through the extension-registration entry point
`add_ext`. -/
structure InstallEvent where
  scope : Nat
  ident : Name
  ext : Ext
  deriving DecidableEq

/-- A sequence of installations through `add_ext`. -/
def runInstalls (r : Resolver) : List InstallEvent → Option Resolver
  | [] => some r
  | e :: rest =>
    match add_ext r e.scope e.ident e.ext with
    | none => none
    | some r1 => runInstalls r1 rest

/-! Concrete fixtures used by the witness theorems. -/

/-- A call-style (rule-based) extension. -/
def extN : Ext := { kind := ExtKind.NormalTT, payload := 1 }

/-- A second, distinct call-style extension. -/
def extN2 : Ext := { kind := ExtKind.NormalTT, payload := 3 }

/-- An attribute-modifier extension. -/
def extM : Ext := { kind := ExtKind.MultiModifier, payload := 2 }

/-- Arena with a root and one child module, both binding the name "m". -/
def arenaA : Arena :=
  [{ parent := none, macros_escape := false, macros := [("m", extN)] },
   { parent := some 0, macros_escape := false, macros := [("m", extN2)] }]

/-- Arena whose modules 1 and 2 have the macros-escape flag set. -/
def arenaB : Arena :=
  [{ parent := none, macros_escape := false, macros := [] },
   { parent := some 0, macros_escape := true, macros := [] },
   { parent := some 1, macros_escape := true, macros := [] }]

/-- Arena with only a root module binding an attribute macro and a
call-style macro. -/
def arenaC : Arena :=
  [{ parent := none, macros_escape := false,
     macros := [("attr1", extM), ("n", extN)] }]

/-- Resolver over `arenaA`: mark 0 is the root expansion, mark 5 lives in
the child module, mark 9 is in a numeric-context position. -/
def rA : Resolver :=
  { arena := arenaA,
    expansion_data := [(0, { module := 0, def_index := 0, const_integer := false }),
                       (5, { module := 1, def_index := 0, const_integer := false }),
                       (9, { module := 0, def_index := 0, const_integer := true })],
    macro_names := ["println"],
    exported_macros := [],
    macros_at_scope := [],
    definitions := [],
    next_node_id_ctr := 0 }

/-- Resolver over `arenaB`: mark 3 lives in the escaping module 2. -/
def rB : Resolver :=
  { arena := arenaB,
    expansion_data := [(3, { module := 2, def_index := 0, const_integer := false })],
    macro_names := [],
    exported_macros := [],
    macros_at_scope := [],
    definitions := [],
    next_node_id_ctr := 0 }

/-- Resolver over `arenaC`: mark 0 is the root expansion. -/
def rC : Resolver :=
  { arena := arenaC,
    expansion_data := [(0, { module := 0, def_index := 0, const_integer := false })],
    macro_names := [],
    exported_macros := [],
    macros_at_scope := [],
    definitions := [],
    next_node_id_ctr := 0 }

/-- A macro definition named "macro_rules" with `use_locally` set. -/
def dReserved : MacroDef :=
  { ident := "macro_rules", span := 0, use_locally := true, exportFlag := false,
    id := 0, body := 7 }

/-- A registry with a single entry for mark 3. -/
def regW : List (Nat × ExpansionData) :=
  [(3, { module := 7, def_index := 8, const_integer := true })]

/-- Two installation events: a call-style extension and an attribute
extension. -/
def evsW : List InstallEvent :=
  [{ scope := 0, ident := "newmac", ext := extN2 },
   { scope := 0, ident := "deco", ext := extM }]

/-- A two-segment macro path (`a::m!()`), with `m` actually defined. -/
def pathW : MacPath :=
  { global := false,
    segments := [{ identifier := "a", parameters := [] },
                 { identifier := "m", parameters := [] }] }

/-- An attribute list whose second attribute is bound to an attribute-kind
extension in `arenaC`ʼs root module. -/
def attrsW : List Attribute :=
  [{ name := "x", span := 0 }, { name := "attr1", span := 1 },
   { name := "y", span := 2 }]

/-! Helper lemmas. -/

theorem parentWfB_spec {a : Arena} (h : parentWfB a = true) :
    ∀ i m p, a.get? i = some m → m.parent = some p → p < i := by
  intro i m p hm hp
  have hi : i < a.length := by
    by_contra hge
    rw [List.get?_eq_none.2 (Nat.le_of_not_lt hge)] at hm
    exact Option.noConfusion hm
  have h2 := (List.all_eq_true.1 h) i (List.mem_range.2 hi)
  rw [hm] at h2
  simp only [hp, decide_eq_true_eq] at h2
  exact h2

theorem alookup_ainsert_self {κ α : Type} [DecidableEq κ]
    (l : List (κ × α)) (k : κ) (v : α) : alookup (ainsert l k v) k = some v := by
  induction l with
  | nil => simp [ainsert, alookup]
  | cons p rest ih =>
    obtain ⟨a, b⟩ := p
    by_cases ha : a = k
    · simp [ainsert, if_pos ha, alookup]
    · simp only [ainsert, if_neg ha, alookup, if_neg ha]
      exact ih

theorem alookup_append_left {κ α : Type} [DecidableEq κ]
    {l : List (κ × α)} {k : κ} {v : α} (h : alookup l k = some v)
    (l2 : List (κ × α)) : alookup (l ++ l2) k = some v := by
  induction l with
  | nil => exact absurd h (by simp [alookup])
  | cons p rest ih =>
    obtain ⟨a, b⟩ := p
    by_cases ha : a = k
    · simp only [alookup, List.cons_append, if_pos ha] at h ⊢
      exact h
    · simp only [alookup, List.cons_append, if_neg ha] at h ⊢
      exact ih h

theorem alookup_append_missing {κ α : Type} [DecidableEq κ]
    {l : List (κ × α)} {k : κ} (h : alookup l k = none) (l2 : List (κ × α)) :
    alookup (l ++ l2) k = alookup l2 k := by
  induction l with
  | nil => simp [alookup]
  | cons p rest ih =>
    obtain ⟨a, b⟩ := p
    by_cases ha : a = k
    · simp only [alookup, if_pos ha] at h
      exact Option.noConfusion h
    · simp only [alookup, List.cons_append, if_neg ha] at h ⊢
      exact ih h

theorem orInsert_present {κ α : Type} [DecidableEq κ]
    {l : List (κ × α)} {k : κ} {v0 : α} (h : alookup l k = some v0) (v : α) :
    orInsert l k v = l := by
  simp [orInsert, h]

theorem orInsert_absent {κ α : Type} [DecidableEq κ]
    {l : List (κ × α)} {k : κ} (h : alookup l k = none) (v : α) :
    orInsert l k v = l ++ [(k, v)] := by
  simp [orInsert, h]

theorem alookup_orInsert_self {κ α : Type} [DecidableEq κ]
    (l : List (κ × α)) (k : κ) (v : α) :
    ∃ w, alookup (orInsert l k v) k = some w := by
  cases h : alookup l k with
  | some w => exact ⟨w, by rw [orInsert_present h]; exact h⟩
  | none =>
    refine ⟨v, ?_⟩
    rw [orInsert_absent h, alookup_append_missing h]
    simp [alookup]

theorem lookupChain_fuel {a : Arena} (hwf : parentWfB a = true) (name : Name) :
    ∀ i fuel1 fuel2, i < fuel1 → i < fuel2 →
      lookupChain a fuel1 i name = lookupChain a fuel2 i name := by
  intro i
  induction i using Nat.strong_induction_on with
  | _ i ih =>
    intro fuel1 fuel2 h1 h2
    match fuel1, fuel2 with
    | f1 + 1, f2 + 1 =>
      cases hm : a.get? i with
      | none => simp only [lookupChain, hm]
      | some m =>
        cases hl : alookup m.macros name with
        | some e => simp only [lookupChain, hm, hl]
        | none =>
          cases hp : m.parent with
          | none => simp only [lookupChain, hm, hl, hp]
          | some p =>
            have hpi : p < i := parentWfB_spec hwf i m p hm hp
            simp only [lookupChain, hm, hl, hp]
            exact ih p hpi f1 f2
              (Nat.lt_of_lt_of_le hpi (Nat.lt_succ_iff.1 h1))
              (Nat.lt_of_lt_of_le hpi (Nat.lt_succ_iff.1 h2))

theorem resolveLookup_found {a : Arena} {i : Nat} {m : ModuleData} {name : Name}
    {e : Ext} (hm : a.get? i = some m) (hl : alookup m.macros name = some e) :
    resolveLookup a i name = some e := by
  simp only [resolveLookup, lookupChain, hm, hl]

theorem resolveLookup_parent {a : Arena} {i p : Nat} {m : ModuleData}
    {name : Name} (hwf : parentWfB a = true) (hm : a.get? i = some m)
    (hl : alookup m.macros name = none) (hp : m.parent = some p) :
    resolveLookup a i name = resolveLookup a p name := by
  have hpi : p < i := parentWfB_spec hwf i m p hm hp
  simp only [resolveLookup, lookupChain, hm, hl, hp]
  exact lookupChain_fuel hwf name p i (p + 1) hpi (Nat.lt_succ_self p)

theorem resolveLookup_rootless {a : Arena} {i : Nat} {m : ModuleData}
    {name : Name} (hm : a.get? i = some m)
    (hl : alookup m.macros name = none) (hp : m.parent = none) :
    resolveLookup a i name = none := by
  simp only [resolveLookup, lookupChain, hm, hl, hp]

theorem escapeChain_fuel {a : Arena} (hwf : parentWfB a = true) :
    ∀ i fuel1 fuel2, i < fuel1 → i < fuel2 →
      escapeChain a fuel1 i = escapeChain a fuel2 i := by
  intro i
  induction i using Nat.strong_induction_on with
  | _ i ih =>
    intro fuel1 fuel2 h1 h2
    match fuel1, fuel2 with
    | f1 + 1, f2 + 1 =>
      cases hm : a.get? i with
      | none => simp only [escapeChain, hm]
      | some m =>
        cases he : m.macros_escape with
        | false => simp only [escapeChain, hm, he]
        | true =>
          cases hp : m.parent with
          | none => simp only [escapeChain, hm, he, hp]
          | some p =>
            have hpi : p < i := parentWfB_spec hwf i m p hm hp
            simp only [escapeChain, hm, he, hp]
            exact ih p hpi f1 f2
              (Nat.lt_of_lt_of_le hpi (Nat.lt_succ_iff.1 h1))
              (Nat.lt_of_lt_of_le hpi (Nat.lt_succ_iff.1 h2))

theorem effModule_noEscape {a : Arena} {i : Nat} {m : ModuleData}
    (hm : a.get? i = some m) (he : m.macros_escape = false) :
    effModule a i = some i := by
  simp only [effModule, escapeChain, hm, he]

theorem effModule_escape {a : Arena} {i p : Nat} {m : ModuleData}
    (hwf : parentWfB a = true) (hm : a.get? i = some m)
    (he : m.macros_escape = true) (hp : m.parent = some p) :
    effModule a i = effModule a p := by
  have hpi : p < i := parentWfB_spec hwf i m p hm hp
  simp only [effModule, escapeChain, hm, he, hp]
  exact escapeChain_fuel hwf p i (p + 1) hpi (Nat.lt_succ_self p)

theorem effModule_spec {a : Arena} (hwf : parentWfB a = true) :
    ∀ i j, effModule a i = some j →
      EscPath a i j ∧ ∃ mj, a.get? j = some mj ∧ mj.macros_escape = false := by
  intro i
  induction i using Nat.strong_induction_on with
  | _ i ih =>
    intro j hj
    cases hm : a.get? i with
    | none => rw [effModule, escapeChain, hm] at hj; exact Option.noConfusion hj
    | some m =>
      cases he : m.macros_escape with
      | false =>
        rw [effModule, escapeChain, hm] at hj
        simp only [he] at hj
        cases hj
        exact ⟨EscPath.refl i, m, hm, he⟩
      | true =>
        cases hp : m.parent with
        | none =>
          rw [effModule, escapeChain, hm] at hj
          simp only [he, hp] at hj
          exact Option.noConfusion hj
        | some p =>
          rw [effModule, escapeChain, hm] at hj
          simp only [he, hp] at hj
          have hpi : p < i := parentWfB_spec hwf i m p hm hp
          have hj2 : effModule a p = some j := by
            rw [effModule,
              escapeChain_fuel hwf p (p + 1) i (Nat.lt_succ_self p) hpi]
            exact hj
          obtain ⟨hpath, hmj⟩ := ih p hpi j hj2
          exact ⟨EscPath.step m hm he hp hpath, hmj⟩

theorem add_ext_install_eq {r : Resolver} {scope : Nat} {nm : Name} {ext : Ext}
    {ed : ExpansionData} {j : Nat} {mj : ModuleData}
    (hreg : alookup r.expansion_data scope = some ed)
    (heff : effModule r.arena ed.module = some j)
    (hj : r.arena.get? j = some mj) :
    add_ext_install r scope nm ext =
      some { r with
             arena := r.arena.set j { mj with macros := ainsert mj.macros nm ext } } := by
  simp only [add_ext_install, hreg, heff, hj]

theorem add_ext_eq {r : Resolver} {scope : Nat} {nm : Name} {ext : Ext}
    {ed : ExpansionData} {j : Nat} {mj : ModuleData}
    (hreg : alookup r.expansion_data scope = some ed)
    (heff : effModule r.arena ed.module = some j)
    (hj : r.arena.get? j = some mj) :
    add_ext r scope nm ext =
      some { r with
             macro_names :=
               match ext.kind with
               | ExtKind.NormalTT => insertName r.macro_names nm
               | _ => r.macro_names,
             arena := r.arena.set j { mj with macros := ainsert mj.macros nm ext } } := by
  cases hk : ext.kind <;>
    · simp only [add_ext, hk]
      exact add_ext_install_eq hreg heff hj

theorem add_ext_install_frame {r r1 : Resolver} {scope : Nat} {nm : Name}
    {ext : Ext} (h : add_ext_install r scope nm ext = some r1) :
    r1.macro_names = r.macro_names ∧ r1.expansion_data = r.expansion_data := by
  unfold add_ext_install at h
  cases h1 : alookup r.expansion_data scope with
  | none => simp only [h1] at h; exact Option.noConfusion h
  | some ed =>
    simp only [h1] at h
    cases h2 : effModule r.arena ed.module with
    | none => simp only [h2] at h; exact Option.noConfusion h
    | some j =>
      simp only [h2] at h
      cases h3 : r.arena.get? j with
      | none => simp only [h3] at h; exact Option.noConfusion h
      | some m =>
        simp only [h3] at h
        cases h
        exact ⟨rfl, rfl⟩

theorem add_ext_names {r r1 : Resolver} {scope : Nat} {nm : Name} {ext : Ext}
    (h : add_ext r scope nm ext = some r1) :
    r1.macro_names =
      (match ext.kind with
       | ExtKind.NormalTT => insertName r.macro_names nm
       | _ => r.macro_names) := by
  cases hk : ext.kind <;>
    · simp only [add_ext, hk] at h
      exact (add_ext_install_frame h).1

theorem insertName_self (l : List Name) (n : Name) : n ∈ insertName l n := by
  by_cases h : n ∈ l <;> simp [insertName, h]

theorem insertName_mono {l : List Name} {x : Name} (h : x ∈ l) (n : Name) :
    x ∈ insertName l n := by
  by_cases hn : n ∈ l <;> simp [insertName, hn, h]

theorem add_ext_mem {r r1 : Resolver} {scope : Nat} {nm : Name} {ext : Ext}
    (h : add_ext r scope nm ext = some r1) :
    (ext.kind = ExtKind.NormalTT → nm ∈ r1.macro_names)
    ∧ ∀ x ∈ r.macro_names, x ∈ r1.macro_names := by
  have hn := add_ext_names h
  constructor
  · intro hk
    rw [hn, hk]
    exact insertName_self _ _
  · intro x hx
    rw [hn]
    cases hk : ext.kind
    case NormalTT => exact insertName_mono hx _
    all_goals exact hx

theorem runInstalls_names {evs : List InstallEvent} :
    ∀ {r r1 : Resolver}, runInstalls r evs = some r1 →
      (∀ e ∈ evs, e.ext.kind = ExtKind.NormalTT → e.ident ∈ r1.macro_names)
      ∧ ∀ x ∈ r.macro_names, x ∈ r1.macro_names := by
  induction evs with
  | nil =>
    intro r r1 h
    simp only [runInstalls] at h
    cases h
    exact ⟨fun e he => absurd he (List.not_mem_nil e), fun x hx => hx⟩
  | cons e rest ih =>
    intro r r1 h
    simp only [runInstalls] at h
    cases ha : add_ext r e.scope e.ident e.ext with
    | none => rw [ha] at h; exact Option.noConfusion h
    | some r2 =>
      rw [ha] at h
      obtain ⟨hrest, hmono⟩ := ih h
      refine ⟨?_, fun x hx => hmono x ((add_ext_mem ha).2 x hx)⟩
      intro e2 he2 hk
      rcases List.mem_cons.1 he2 with he2 | he2
      · subst he2
        exact hmono e2.ident ((add_ext_mem ha).1 hk)
      · exact hrest e2 he2 hk

theorem Nested_append {defs : List DefEntry} {root k : Nat}
    (l : List DefEntry) (h : Nested defs root k) : Nested (defs ++ l) root k := by
  induction h with
  | root => exact Nested.root
  | step hg _ ih =>
    exact Nested.step
      (by rw [List.get?_append (List.get?_eq_some.mp hg).1]; exact hg) ih

mutual

theorem visitNode_append (module parent : Nat) (st : CState) (n : Node) :
    ∃ l, (visitNode module parent st n).defs = st.defs ++ l := by
  cases n with
  | invoc nid mark => exact ⟨[{ node_id := nid, parent := parent }], rfl⟩
  | plain nid children =>
    obtain ⟨l, hl⟩ := visitList_append module st.defs.length
      { st with defs := st.defs ++ [{ node_id := nid, parent := parent }] } children
    refine ⟨[{ node_id := nid, parent := parent }] ++ l, ?_⟩
    show (visitList module st.defs.length
      { st with defs := st.defs ++ [{ node_id := nid, parent := parent }] } children).defs
      = st.defs ++ ([{ node_id := nid, parent := parent }] ++ l)
    rw [hl]
    simp

theorem visitList_append (module parent : Nat) (st : CState) (ns : List Node) :
    ∃ l, (visitList module parent st ns).defs = st.defs ++ l := by
  cases ns with
  | nil => exact ⟨[], by simp [visitList]⟩
  | cons n rest =>
    obtain ⟨l0, hl0⟩ := visitNode_append module parent st n
    obtain ⟨l1, hl1⟩ := visitList_append module parent (visitNode module parent st n) rest
    refine ⟨l0 ++ l1, ?_⟩
    show (visitList module parent (visitNode module parent st n) rest).defs = _
    rw [hl1, hl0]
    simp

end

mutual

theorem visitNode_cover (module parent root : Nat) (st : CState) (n : Node)
    (hp : Nested st.defs root parent) :
    ∀ id ∈ nodeIds n, ∃ k e,
      (visitNode module parent st n).defs.get? k = some e ∧ e.node_id = id ∧
      Nested (visitNode module parent st n).defs root k := by
  cases n with
  | invoc nid mark =>
    intro id hid
    have hid2 : id = nid := by simpa [nodeIds] using hid
    subst hid2
    refine ⟨st.defs.length, DefEntry.mk id parent, ?_, rfl, ?_⟩
    · exact List.get?_concat_length st.defs (DefEntry.mk id parent)
    · exact Nested.step (List.get?_concat_length st.defs (DefEntry.mk id parent))
        (Nested_append [DefEntry.mk id parent] hp)
  | plain nid children =>
    intro id hid
    have hk0 : (st.defs ++ [DefEntry.mk nid parent]).get? st.defs.length
        = some (DefEntry.mk nid parent) :=
      List.get?_concat_length st.defs (DefEntry.mk nid parent)
    have hp1 : Nested (st.defs ++ [DefEntry.mk nid parent]) root
        st.defs.length := Nested.step hk0 (Nested_append [DefEntry.mk nid parent] hp)
    have hsplit : id = nid ∨ id ∈ nodeIdsList children := by
      simpa [nodeIds] using hid
    obtain ⟨l, hl⟩ := visitList_append module st.defs.length
      { st with defs := st.defs ++ [{ node_id := nid, parent := parent }] } children
    rcases hsplit with h | h
    · subst h
      refine ⟨st.defs.length, DefEntry.mk id parent, ?_, rfl, ?_⟩
      · show (visitList module st.defs.length
          { st with defs := st.defs ++ [{ node_id := id, parent := parent }] }
          children).defs.get? st.defs.length = _
        rw [hl, List.get?_append (List.get?_eq_some.mp hk0).1]
        exact hk0
      · show Nested (visitList module st.defs.length
          { st with defs := st.defs ++ [{ node_id := id, parent := parent }] }
          children).defs root st.defs.length
        rw [hl]
        exact Nested_append _ hp1
    · exact visitList_cover module st.defs.length root
        { st with defs := st.defs ++ [{ node_id := nid, parent := parent }] }
        children hp1 id h

theorem visitList_cover (module parent root : Nat) (st : CState) (ns : List Node)
    (hp : Nested st.defs root parent) :
    ∀ id ∈ nodeIdsList ns, ∃ k e,
      (visitList module parent st ns).defs.get? k = some e ∧ e.node_id = id ∧
      Nested (visitList module parent st ns).defs root k := by
  cases ns with
  | nil => intro id hid; simp [nodeIdsList] at hid
  | cons n rest =>
    intro id hid
    have hsplit : id ∈ nodeIds n ∨ id ∈ nodeIdsList rest := by
      simpa [nodeIdsList] using hid
    rcases hsplit with h | h
    · obtain ⟨k, e, hg, hnid, hnest⟩ := visitNode_cover module parent root st n hp id h
      obtain ⟨l, hl⟩ := visitList_append module parent (visitNode module parent st n) rest
      refine ⟨k, e, ?_, hnid, ?_⟩
      · show (visitList module parent (visitNode module parent st n) rest).defs.get? k
          = some e
        rw [hl, List.get?_append (List.get?_eq_some.mp hg).1]
        exact hg
      · show Nested (visitList module parent (visitNode module parent st n) rest).defs
          root k
        rw [hl]
        exact Nested_append _ hnest
    · obtain ⟨l0, hl0⟩ := visitNode_append module parent st n
      have hp2 : Nested (visitNode module parent st n).defs root parent := by
        rw [hl0]
        exact Nested_append _ hp
      exact visitList_cover module parent root (visitNode module parent st n) rest hp2 id h

end

theorem extractName_single (nm : Name) :
    extractName (InvocationKind.bang
      { global := false, segments := [{ identifier := nm, parameters := [] }] })
      = some (Sum.inr nm) := by
  simp [extractName]

theorem findAttrLoop_cons_true {table : List (Name × Ext)} {a : Attribute}
    (rest : List Attribute) (h : attrMatches table a = true) :
    findAttrLoop table (a :: rest) = (some a, rest) := by
  simp [findAttrLoop, h]

theorem findAttrLoop_cons_false {table : List (Name × Ext)} {a : Attribute}
    (rest : List Attribute) (h : attrMatches table a = false) :
    findAttrLoop table (a :: rest)
      = ((findAttrLoop table rest).1, a :: (findAttrLoop table rest).2) := by
  cases hr : findAttrLoop table rest with
  | mk found rest2 => simp [findAttrLoop, h, hr]

theorem findAttrLoop_all_false {table : List (Name × Ext)} :
    ∀ {attrs : List Attribute}, (∀ a ∈ attrs, attrMatches table a = false) →
      findAttrLoop table attrs = (none, attrs) := by
  intro attrs
  induction attrs with
  | nil => intro; rfl
  | cons a rest ih =>
    intro hall
    rw [findAttrLoop_cons_false rest (hall a (by simp)),
        ih fun b hb => hall b (by simp [hb])]

theorem findAttrLoop_first {table : List (Name × Ext)} :
    ∀ (pre : List Attribute) (a : Attribute) (post : List Attribute),
      attrMatches table a = true → (∀ b ∈ pre, attrMatches table b = false) →
      findAttrLoop table (pre ++ a :: post) = (some a, pre ++ post) := by
  intro pre
  induction pre with
  | nil => intro a post ha _; simpa using findAttrLoop_cons_true post ha
  | cons b rest ih =>
    intro a post ha hall
    rw [List.cons_append, findAttrLoop_cons_false _ (hall b (by simp)),
        ih a post ha fun c hc => hall c (by simp [hc])]
    simp

/-! The claim theorems. -/

/-- C1: for every resolvable invocation, `resolve_invoc` starts at the module
registered for the invocationʼs mark and checks that moduleʼs scope table; if
the name is absent it moves to the parent and repeats, returning the first
definition found (so a childʼs binding shadows any ancestorʼs), and the walk
stops only after a module with no parent has been checked. -/
theorem c1_resolve_invoc_scope_chain (r : Resolver) (scope : Nat) (nm : Name)
    (ed : ExpansionData)
    (hwf : parentWfB r.arena = true)
    (hreg : alookup r.expansion_data scope = some ed) :
    (∀ e, resolveLookup r.arena ed.module nm = some e →
        resolve_invoc r scope
          { kind := InvocationKind.bang
              { global := false,
                segments := [{ identifier := nm, parameters := [] }] } }
          = some (some e, []))
    ∧ (∀ e, resolveLookup r.arena ed.module nm = some e →
        resolve_invoc r scope { kind := InvocationKind.attr nm }
          = some (some e, []))
    ∧ (∀ i m e, r.arena.get? i = some m → alookup m.macros nm = some e →
        resolveLookup r.arena i nm = some e)
    ∧ (∀ i m p, r.arena.get? i = some m → alookup m.macros nm = none →
        m.parent = some p →
        resolveLookup r.arena i nm = resolveLookup r.arena p nm)
    ∧ (∀ i m, r.arena.get? i = some m → alookup m.macros nm = none →
        m.parent = none → resolveLookup r.arena i nm = none) := by
  refine ⟨?_, ?_,
          fun i m e hm hl => resolveLookup_found hm hl,
          fun i m p hm hl hp => resolveLookup_parent hwf hm hl hp,
          fun i m hm hl hp => resolveLookup_rootless hm hl hp⟩
  · intro e he
    simp only [resolve_invoc, extractName_single, hreg, he]
  · intro e he
    simp only [resolve_invoc, extractName, hreg, he]

/-- Witness for C1: in `rA`, mark 5 lives in child module 1 where "m" is
bound to `extN2`, shadowing the root moduleʼs binding `extN` of the same
name. -/
theorem c1_witness :
    parentWfB rA.arena = true
    ∧ alookup rA.expansion_data 5 = some (ExpansionData.mk 1 0 false)
    ∧ resolve_invoc rA 5
        { kind := InvocationKind.bang
            { global := false,
              segments := [{ identifier := "m", parameters := [] }] } }
        = some (some extN2, []) :=
  ⟨by decide, by decide,
   (c1_resolve_invoc_scope_chain rA 5 "m" (ExpansionData.mk 1 0 false)
     (by decide) (by decide)).1 extN2 (by decide)⟩

/-- C2: a call-style invocation whose path has more than one segment, or a
leading path-root qualifier, or generic parameters on its single segment, is
rejected with the "expected macro name without module separators" diagnostic
and no binding, for every resolver state (so no scope-table lookup can have
happened and it does not matter whether the macro is defined anywhere). -/
theorem c2_malformed_path_rejected (r : Resolver) (scope : Nat) (path : MacPath)
    (h : path.segments.length > 1 ∨ path.global = true ∨
         ∃ s, path.segments = [s] ∧ s.parameters ≠ []) :
    resolve_invoc r scope { kind := InvocationKind.bang path }
      = some (none,
          [{ msg := "expected macro name without module separators",
             help := none }]) := by
  have herr : extractName (InvocationKind.bang path) = some (Sum.inl ()) := by
    rcases h with h1 | h2 | ⟨s, hs, hp⟩
    · simp [extractName, h1]
    · simp [extractName, h2]
    · by_cases hg : path.global = true
      · simp [extractName, hg]
      · have hg2 : path.global = false := by
          cases hgb : path.global
          · rfl
          · exact absurd hgb hg
        have hne : s.parameters.isEmpty = false := by
          cases hsp : s.parameters with
          | nil => exact absurd hsp hp
          | cons a t => rfl
        simp [extractName, hs, hg2, hne]
  simp only [resolve_invoc, herr]

/-- Witness for C2: `a::m!()` is rejected in `rA` even though `m` is defined
in both modules of `arenaA`. -/
theorem c2_witness :
    (pathW.segments.length > 1 ∨ pathW.global = true ∨
      ∃ s, pathW.segments = [s] ∧ s.parameters ≠ [])
    ∧ resolve_invoc rA 0 { kind := InvocationKind.bang pathW }
        = some (none,
            [{ msg := "expected macro name without module separators",
               help := none }]) :=
  ⟨Or.inl (by decide),
   c2_malformed_path_rejected rA 0 pathW (Or.inl (by decide))⟩

/-- C4: when the name is bound in no module on the chain from the markʼs
module to the root, `resolve_invoc` emits the diagnostic
"macro undefined: ʼnameʼ" (with the name between plain single quotes and a
trailing bang), attaches the suggestion computed by nearest-name matching
over the global `macro_names` set — the did-you-mean help when the best
match differs from the input, the module-use-annotation hint when it equals
it — and returns no binding. -/
theorem c4_undefined_macro_diag (r : Resolver) (scope : Nat) (nm : Name)
    (ed : ExpansionData)
    (hreg : alookup r.expansion_data scope = some ed)
    (hmiss : resolveLookup r.arena ed.module nm = none) :
    resolve_invoc r scope
        { kind := InvocationKind.bang
            { global := false,
              segments := [{ identifier := nm, parameters := [] }] } }
      = some (none,
          [{ msg := "macro undefined: " ++ "'" ++ nm ++ "!" ++ "'",
             help := suggest_macro_name r nm }])
    ∧ suggest_macro_name r nm =
        (match find_best_match_for_name r.macro_names nm with
         | none => none
         | some s => some (if s = nm then Help.macroUse else Help.didYouMean s)) := by
  constructor
  · simp only [resolve_invoc, extractName_single, hreg, hmiss]
  · unfold suggest_macro_name
    cases hb : find_best_match_for_name r.macro_names nm with
    | none => rfl
    | some s =>
      by_cases hs : s = nm
      · simp [hs]
      · simp [hs]

/-- Witness for C4: invoking `prinltn!()` in `rA` (whose known-names set is
`{"println"}` and whose scope tables bind only "m") produces exactly
"macro undefined: 'prinltn!'" with the did-you-mean help for "println". -/
theorem c4_witness :
    alookup rA.expansion_data 0 = some (ExpansionData.mk 0 0 false)
    ∧ resolveLookup rA.arena 0 "prinltn" = none
    ∧ resolve_invoc rA 0
        { kind := InvocationKind.bang
            { global := false,
              segments := [{ identifier := "prinltn", parameters := [] }] } }
        = some (none, [{ msg := "macro undefined: 'prinltn!'",
                         help := some (Help.didYouMean "println") }]) :=
  ⟨by decide, by decide,
   ((c4_undefined_macro_diag rA 0 "prinltn" (ExpansionData.mk 0 0 false)
      (by decide) (by decide)).1).trans (by decide)⟩

/-- C5: an installation whose scope mark maps to a module with the
macros-escape flag set inserts the definition into the nearest ancestor
whose flag is unset — every module on the walk before it is escaping, the
target is not, and no other moduleʼs table changes — never into the escaping
module itself; with the flag unset the markʼs own module receives it. -/
theorem c5_escape_routing (r : Resolver) (scope : Nat) (nm : Name) (ext : Ext)
    (ed : ExpansionData) (j : Nat)
    (hwf : parentWfB r.arena = true)
    (hreg : alookup r.expansion_data scope = some ed)
    (heff : effModule r.arena ed.module = some j) :
    (∃ mj, r.arena.get? j = some mj ∧ mj.macros_escape = false ∧
        EscPath r.arena ed.module j ∧
        ∃ r1, add_ext r scope nm ext = some r1 ∧
          (r1.arena.get? j).map ModuleData.macros = some (ainsert mj.macros nm ext) ∧
          ∀ k, k ≠ j → r1.arena.get? k = r.arena.get? k)
    ∧ (∀ m0, r.arena.get? ed.module = some m0 → m0.macros_escape = true →
        j ≠ ed.module)
    ∧ (∀ m0, r.arena.get? ed.module = some m0 → m0.macros_escape = false →
        j = ed.module) := by
  obtain ⟨hpath, mj, hj, hesc⟩ := effModule_spec hwf ed.module j heff
  refine ⟨⟨mj, hj, hesc, hpath, ?_⟩, ?_, ?_⟩
  · refine ⟨_, add_ext_eq hreg heff hj, ?_, ?_⟩
    · have hjlen : j < r.arena.length := (List.get?_eq_some.mp hj).1
      rw [show ({ r with
            macro_names :=
              match ext.kind with
              | ExtKind.NormalTT => insertName r.macro_names nm
              | _ => r.macro_names,
            arena := r.arena.set j
              { mj with macros := ainsert mj.macros nm ext } } : Resolver).arena
          = r.arena.set j { mj with macros := ainsert mj.macros nm ext } from rfl,
        List.get?_set_eq_of_lt _ hjlen]
      rfl
    · intro k hk
      have hjk : j ≠ k := fun hjk => hk hjk.symm
      exact List.get?_set_ne _ _ hjk
  · intro m0 hm0 he0 hje
    rw [hje, hm0] at hj
    cases hj
    rw [hesc] at he0
    exact Bool.noConfusion he0
  · intro m0 hm0 he0
    have h2 := effModule_noEscape hm0 he0
    rw [heff] at h2
    exact (Option.some.injEq _ _).mp h2

/-- Witness for C5: in `rB` the mark-3 module 2 escapes, module 1 escapes,
and the definition lands in module 0, the nearest non-escaping ancestor. -/
theorem c5_witness :
    parentWfB rB.arena = true
    ∧ alookup rB.expansion_data 3 = some (ExpansionData.mk 2 0 false)
    ∧ effModule rB.arena 2 = some 0
    ∧ (∃ mj, rB.arena.get? 0 = some mj ∧ mj.macros_escape = false ∧
        EscPath rB.arena 2 0 ∧
        ∃ r1, add_ext rB 3 "x" extN = some r1 ∧
          (r1.arena.get? 0).map ModuleData.macros = some (ainsert mj.macros "x" extN) ∧
          ∀ k, k ≠ 0 → r1.arena.get? k = rB.arena.get? k) :=
  ⟨by decide, by decide, by decide,
   (c5_escape_routing rB 3 "x" extN (ExpansionData.mk 2 0 false) 0
     (by decide) (by decide) (by decide)).1⟩

/-- C8: `find_attr_invoc` resolves attribute names only against the module
of the mark-0 (root) expansion — its result is a function of that tableʼs
bindings alone — scanning in source order: it removes and returns the first
attribute bound to an attribute-modifier, attribute-decorator or
procedural-attribute extension, leaves every other attribute in place, and
returns none when no attribute is so bound. -/
theorem c8_attr_scan (r : Resolver) (attrs : List Attribute)
    (ed0 : ExpansionData) (rootm : ModuleData)
    (h0 : alookup r.expansion_data 0 = some ed0)
    (hroot : r.arena.get? ed0.module = some rootm) :
    find_attr_invoc r attrs = some (findAttrLoop rootm.macros attrs)
    ∧ ((∀ a ∈ attrs, attrMatches rootm.macros a = false) →
        findAttrLoop rootm.macros attrs = (none, attrs))
    ∧ (∀ pre a post, attrs = pre ++ a :: post →
        attrMatches rootm.macros a = true →
        (∀ b ∈ pre, attrMatches rootm.macros b = false) →
        findAttrLoop rootm.macros attrs = (some a, pre ++ post)) := by
  refine ⟨by simp only [find_attr_invoc, h0, hroot], findAttrLoop_all_false, ?_⟩
  intro pre a post hsplit ha hpre
  rw [hsplit]
  exact findAttrLoop_first pre a post ha hpre

/-- Witness for C8: in `rC` the list `[x, attr1, y]` yields `attr1` (bound
to the attribute-modifier `extM` in the root module) and leaves `[x, y]`. -/
theorem c8_witness :
    alookup rC.expansion_data 0 = some (ExpansionData.mk 0 0 false)
    ∧ rC.arena.get? 0 = some (ModuleData.mk none false [("attr1", extM), ("n", extN)])
    ∧ find_attr_invoc rC attrsW
        = some (some (Attribute.mk "attr1" 1),
                [Attribute.mk "x" 0, Attribute.mk "y" 2]) :=
  ⟨by decide, by decide,
   ((c8_attr_scan rC attrsW (ExpansionData.mk 0 0 false)
      (ModuleData.mk none false [("attr1", extM), ("n", extN)])
      (by decide) (by decide)).1).trans (by decide)⟩

/-- C9: `add_ext` records the name in the global known-macro-names set
exactly when the extension is call-style-compatible (`NormalTT`), and after
any sequence of installations the set contains every name ever bound by a
call-style-compatible extension, whatever scopes they went to. -/
theorem c9_known_names (r : Resolver) :
    (∀ scope nm ext r1, add_ext r scope nm ext = some r1 →
        r1.macro_names =
          (match ext.kind with
           | ExtKind.NormalTT => insertName r.macro_names nm
           | _ => r.macro_names))
    ∧ (∀ evs r1, runInstalls r evs = some r1 →
        ∀ e ∈ evs, e.ext.kind = ExtKind.NormalTT → e.ident ∈ r1.macro_names) :=
  ⟨fun _ _ _ _ h => add_ext_names h,
   fun _ _ h => (runInstalls_names h).1⟩

/-- Witness for C9: after installing the call-style `newmac` and the
attribute-style `deco` into `rA`, `newmac` is in the known-names set. -/
theorem c9_witness :
    ∃ r1, runInstalls rA evsW = some r1 ∧ "newmac" ∈ r1.macro_names := by
  cases h : runInstalls rA evsW with
  | none => exact absurd h (by decide)
  | some r1 =>
    exact ⟨r1, rfl,
      (c9_known_names rA).2 evsW r1 h (InstallEvent.mk 0 "newmac" extN2)
        (by decide) rfl⟩

/-- C10: when the markʼs numeric-context flag is set and the expansion
output is not a single expression, `collect_def_ids` performs no traversal:
the resolver — in particular the definitions table and the expansion
registry — is returned unchanged. -/
theorem c10_numeric_no_traversal (r : Resolver) (mark : Nat)
    (ed : ExpansionData)
    (hreg : alookup r.expansion_data mark = some ed)
    (hci : ed.const_integer = true) :
    (∀ l, collect_def_ids r mark (Expansion.items l) = some r)
    ∧ (∀ l, collect_def_ids r mark (Expansion.stmts l) = some r) := by
  constructor <;> intro l <;> simp only [collect_def_ids, hreg, hci]

/-- Witness for C10: in `rA`, mark 9 is numeric-context; collecting an
item-shaped expansion leaves the resolver untouched. -/
theorem c10_witness :
    alookup rA.expansion_data 9 = some (ExpansionData.mk 0 0 true)
    ∧ collect_def_ids rA 9 (Expansion.items [Node.plain 1 []]) = some rA :=
  ⟨by decide,
   (c10_numeric_no_traversal rA 9 (ExpansionData.mk 0 0 true)
     (by decide) rfl).1 [Node.plain 1 []]⟩

/-- C6: registering expansion bookkeeping during collection (the
`visit_macro_invoc` callback) uses insert-if-absent semantics: an existing
entry survives a second registration with any (even different) module
unchanged, a fresh entry inherits the current module together with the
invocationʼs own identity root and numeric-context flag, and a double
registration keeps the first entry; during collection the callback is
applied with the module current at collection time. -/
theorem c6_insert_if_absent (module1 module2 di1 di2 : Nat) (ci1 ci2 : Bool)
    (registry : List (Nat × ExpansionData)) (markId : Nat) :
    (∀ e, alookup registry markId = some e →
        visit_macro_invoc module1 registry markId di1 ci1 = registry)
    ∧ (alookup registry markId = none →
        visit_macro_invoc module1 registry markId di1 ci1
          = registry ++ [(markId, ExpansionData.mk module1 di1 ci1)])
    ∧ visit_macro_invoc module2
        (visit_macro_invoc module1 registry markId di1 ci1) markId di2 ci2
        = visit_macro_invoc module1 registry markId di1 ci1
    ∧ (∀ r mark ed nid mk2, alookup r.expansion_data mark = some ed →
        ed.const_integer = false →
        collect_def_ids r mark (Expansion.items [Node.invoc nid mk2])
          = some { r with
                   definitions := r.definitions ++ [DefEntry.mk nid ed.def_index],
                   expansion_data :=
                     visit_macro_invoc ed.module r.expansion_data mk2
                       ed.def_index false }) := by
  refine ⟨fun e he => orInsert_present he _, fun he => orInsert_absent he _, ?_, ?_⟩
  · cases he : alookup registry markId with
    | some e =>
      rw [show visit_macro_invoc module1 registry markId di1 ci1 = registry
          from orInsert_present he _]
      exact orInsert_present he _
    | none =>
      rw [show visit_macro_invoc module1 registry markId di1 ci1
          = registry ++ [(markId, ExpansionData.mk module1 di1 ci1)]
          from orInsert_absent he _]
      have hl : alookup (registry ++ [(markId, ExpansionData.mk module1 di1 ci1)])
          markId = some (ExpansionData.mk module1 di1 ci1) := by
        rw [alookup_append_missing he]
        simp [alookup]
      exact orInsert_present hl _
  · intro r mark ed nid mk2 hreg hci
    simp only [collect_def_ids, hreg, hci, visitExpansion, visitList, visitNode]

/-- Witness for C6: mark 4 is absent from `regW`, so registration appends an
entry with the given module; a second registration with a different module
(and different flag) leaves that first entry in place. -/
theorem c6_witness :
    alookup regW 4 = none
    ∧ visit_macro_invoc 1 regW 4 9 false = regW ++ [(4, ExpansionData.mk 1 9 false)]
    ∧ visit_macro_invoc 2 (visit_macro_invoc 1 regW 4 9 false) 4 9 true
        = visit_macro_invoc 1 regW 4 9 false :=
  ⟨by decide,
   (c6_insert_if_absent 1 2 9 9 false true regW 4).2.1 (by decide),
   (c6_insert_if_absent 1 2 9 9 false true regW 4).2.2.1⟩

/-- C7: with the numeric-context flag set and a single-expression output,
`collect_def_ids` visits only that expression as a constant-integer position
(an invocation expression is registered with the flag, any other expression
only receives its own identity — children and registry untouched); with the
flag unset, every node of the output receives an identity nested under the
markʼs identity root. -/
theorem c7_collect_dispatch (r : Resolver) (mark : Nat) (ed : ExpansionData)
    (hreg : alookup r.expansion_data mark = some ed) :
    (ed.const_integer = true →
      (∀ nid mk2, collect_def_ids r mark (Expansion.expr (Node.invoc nid mk2))
          = some { r with
                   expansion_data :=
                     visit_macro_invoc ed.module r.expansion_data mk2
                       ed.def_index true })
      ∧ (∀ nid children,
          collect_def_ids r mark (Expansion.expr (Node.plain nid children))
            = some { r with
                     definitions := r.definitions ++ [DefEntry.mk nid ed.def_index] }))
    ∧ (ed.const_integer = false → ∀ expansion, ∃ r1,
        collect_def_ids r mark expansion = some r1 ∧
        ∀ id ∈ expansionNodeIds expansion, ∃ k e,
          r1.definitions.get? k = some e ∧ e.node_id = id ∧
          Nested r1.definitions ed.def_index k) := by
  constructor
  · intro hci
    constructor
    · intro nid mk2
      simp only [collect_def_ids, hreg, hci, visit_ast_const_integer]
    · intro nid children
      simp only [collect_def_ids, hreg, hci, visit_ast_const_integer]
  · intro hci expansion
    refine ⟨{ r with
              definitions := (visitExpansion ed.module ed.def_index
                (CState.mk r.definitions r.expansion_data) expansion).defs,
              expansion_data := (visitExpansion ed.module ed.def_index
                (CState.mk r.definitions r.expansion_data) expansion).registry },
            by simp only [collect_def_ids, hreg, hci], ?_⟩
    intro id hid
    cases expansion with
    | expr e =>
      exact visitNode_cover ed.module ed.def_index ed.def_index
        (CState.mk r.definitions r.expansion_data) e Nested.root id hid
    | items l =>
      exact visitList_cover ed.module ed.def_index ed.def_index
        (CState.mk r.definitions r.expansion_data) l Nested.root id hid
    | stmts l =>
      exact visitList_cover ed.module ed.def_index ed.def_index
        (CState.mk r.definitions r.expansion_data) l Nested.root id hid

/-- Witness for C7: in `rA`, mark 9 is numeric-context; collecting the
single expression `plain 4 [plain 5 []]` assigns an identity to node 4 only
(node 5, inside it, is not visited) and leaves the registry unchanged. -/
theorem c7_witness :
    alookup rA.expansion_data 9 = some (ExpansionData.mk 0 0 true)
    ∧ collect_def_ids rA 9 (Expansion.expr (Node.plain 4 [Node.plain 5 []]))
        = some { rA with definitions := [DefEntry.mk 4 0] } :=
  ⟨by decide,
   (((c7_collect_dispatch rA 9 (ExpansionData.mk 0 0 true) (by decide)).1
       rfl).2 4 [Node.plain 5 []]).trans (by decide)⟩

/-- C3 counterexample: the claim says a definition named "macro_rules" is
not installed into any scope table, but `add_macro` has no early return
after reporting the error — on `rC` with `dReserved` (`use_locally` set) the
reserved-name diagnostic is emitted AND the compiled definition is installed
into the root moduleʼs scope table. -/
theorem c3_counterexample :
    ( add_macro rC 0 dReserved).map
        (fun p => (p.2, (p.1.arena.get? 0).map ModuleData.macros))
      = some ([reservedNameDiag],
          some [("attr1", extM), ("n", extN),
                ("macro_rules", Ext.mk ExtKind.NormalTT 7)]) := by
  decide

/-- C3 (amended): a macro definition named "macro_rules" is reported as a
hard error, but processing continues: when `use_locally` is set the
definition is still compiled and installed into the effective moduleʼs scope
table (and the `export` flag is still honoured). -/
theorem c3_reserved_name_reported_but_installed (r : Resolver) (scope : Nat)
    (d : MacroDef) (ed : ExpansionData) (j : Nat) (mj : ModuleData)
    (hname : d.ident = "macro_rules") (huse : d.use_locally = true)
    (hreg : alookup r.expansion_data scope = some ed)
    (heff : effModule r.arena ed.module = some j)
    (hj : r.arena.get? j = some mj) :
    ∃ r1 diags, add_macro r scope d = some (r1, diags) ∧
      diags = [reservedNameDiag] ∧
      (r1.arena.get? j).map ModuleData.macros
        = some (ainsert mj.macros "macro_rules" (compile d)) := by
  have hadd : add_ext r scope d.ident (compile d)
      = some { r with
               macro_names :=
                 match (compile d).kind with
                 | ExtKind.NormalTT => insertName r.macro_names d.ident
                 | _ => r.macro_names,
               arena := r.arena.set j
                 { mj with macros := ainsert mj.macros d.ident (compile d) } } :=
    add_ext_eq hreg heff hj
  rw [hname] at hadd
  simp only [compile] at hadd
  have hjlen : j < r.arena.length := (List.get?_eq_some.mp hj).1
  have hget : (r.arena.set j
        { mj with macros := ainsert mj.macros "macro_rules" (compile d) }).get? j
      = some { mj with macros := ainsert mj.macros "macro_rules" (compile d) } :=
    List.get?_set_eq_of_lt _ hjlen
  cases hexp : d.exportFlag with
  | false =>
    refine ⟨{ r with
              macro_names := insertName r.macro_names "macro_rules",
              arena := r.arena.set j
                { mj with macros := ainsert mj.macros "macro_rules" (compile d) } },
            [reservedNameDiag], ?_, rfl, ?_⟩
    · simp [ add_macro, hname, huse, hexp, hadd, compile]
    · simp only [hget, Option.map_some']
  | true =>
    refine ⟨{ r with
              macro_names := insertName r.macro_names "macro_rules",
              arena := r.arena.set j
                { mj with macros := ainsert mj.macros "macro_rules" (compile d) },
              next_node_id_ctr := r.next_node_id_ctr + 1,
              exported_macros :=
                r.exported_macros ++ [{ d with id := r.next_node_id_ctr }] },
            [reservedNameDiag], ?_, rfl, ?_⟩
    · simp [ add_macro, hname, huse, hexp, hadd, compile]
    · simp only [hget, Option.map_some']

/-- Witness for C3 (amended): on `rC` with `dReserved`, `add_macro` returns
the reserved-name diagnostic and the root table gains the binding. -/
theorem c3_witness :
    dReserved.ident = "macro_rules"
    ∧ dReserved.use_locally = true
    ∧ alookup rC.expansion_data 0 = some (ExpansionData.mk 0 0 false)
    ∧ effModule rC.arena 0 = some 0
    ∧ rC.arena.get? 0 = some (ModuleData.mk none false [("attr1", extM), ("n", extN)])
    ∧ ∃ r1 diags, add_macro rC 0 dReserved = some (r1, diags) ∧
        diags = [reservedNameDiag] ∧
        (r1.arena.get? 0).map ModuleData.macros
          = some (ainsert [("attr1", extM), ("n", extN)] "macro_rules"
              (compile dReserved)) :=
  ⟨rfl, rfl, by decide, by decide, by decide,
   c3_reserved_name_reported_but_installed rC 0 dReserved
     (ExpansionData.mk 0 0 false) 0
     (ModuleData.mk none false [("attr1", extM), ("n", extN)])
     rfl rfl (by decide) (by decide) (by decide)⟩

end RustcResolve
